import Mathlib

set_option autoImplicit false

/-!
Shallow embedding of the Tether server's conversation persistence layer
(`src/server/services/conversation_repository.py`), the generation-step
message filter of the RAG orchestrator, and the activity analyzer
(`src/server/services/rag_service.py`), together with proofs of the
specified properties.

Modelling conventions:
* SQLite tables are lists of row structures; `rowid` allocation is a
  counter on the database state.
* `CURRENT_TIMESTAMP` is an explicit `now : Nat` argument to every
  repository operation that the source lets SQLite stamp.
* JSON metadata round-trips through `json.dumps`/`json.loads` unchanged,
  so it is modelled as a structured value carried through as-is.
* `ORDER BY` is a stable insertion sort on the relevant key.
* Python exceptions raised before any write are modelled with `Except`.
-/

namespace Tether

/-- A LangChain tool-call descriptor: the `{'name','args','id'}` dicts the
repository stores in message metadata. -/
structure ToolCall where
  name : String
  args : List (String × String)
  callId : String
deriving Repr, DecidableEq

/-- Structured stand-in for the JSON metadata dict stored with a message
(`additional_kwargs`, optional `tool_calls`, optional `tool_call_id`). -/
structure MsgMeta where
  additional_kwargs : List (String × String)
  tool_calls : Option (List ToolCall)
  tool_call_id : Option String
deriving Repr, DecidableEq

instance : Inhabited MsgMeta := ⟨⟨[], none, none⟩⟩

/-- A row of the `sessions` table. -/
structure SessionRow where
  id : String
  name : Option String
  created_at : Nat
  updated_at : Nat
  metadata : Option (List (String × String))
  is_active : Bool
deriving Repr, DecidableEq

/-- A row of the `messages` table. -/
structure MessageRow where
  id : Nat
  session_id : String
  message_type : String
  content : String
  metadata : Option MsgMeta
  mode : String
  created_at : Nat
deriving Repr, DecidableEq

/-- A row of the `checklists` table. -/
structure ChecklistRow where
  id : Nat
  session_id : String
  message_id : Nat
  task_text : String
  is_completed : Bool
  position : Nat
  created_at : Nat
  updated_at : Nat
deriving Repr, DecidableEq

/-- The SQLite database state seen by `ConversationRepository`. -/
structure DB where
  sessions : List SessionRow
  messages : List MessageRow
  checklists : List ChecklistRow
  next_message_rowid : Nat
  next_checklist_rowid : Nat
deriving Repr, DecidableEq

/-! Stable insertion sort by a `Nat` key, modelling SQL `ORDER BY key ASC`
(respectively `DESC`, which Python's `sorted(..., reverse=True)` also is). -/

/-- Insert `a` in front of the first element whose key is not smaller;
stable for elements with equal keys. -/
def insertByKey {α : Type} (key : α → Nat) (a : α) : List α → List α
  | [] => [a]
  | b :: bs => if key a ≤ key b then a :: b :: bs else b :: insertByKey key a bs

/-- Stable insertion sort, ascending by `key`. -/
def sortByKey {α : Type} (key : α → Nat) : List α → List α
  | [] => []
  | a :: as => insertByKey key a (sortByKey key as)

/-- Insert `a` in front of the first element whose key is not larger;
stable, used for descending orderings. -/
def insertByKeyDesc {α : Type} (key : α → Nat) (a : α) : List α → List α
  | [] => [a]
  | b :: bs => if key b ≤ key a then a :: b :: bs else b :: insertByKeyDesc key a bs

/-- Stable insertion sort, descending by `key`. -/
def sortByKeyDesc {α : Type} (key : α → Nat) : List α → List α
  | [] => []
  | a :: as => insertByKeyDesc key a (sortByKeyDesc key as)

/-! Embedding of `ConversationRepository` (conversation_repository.py).
Every repository method opens its own fresh SQLite connection; none of
them issues `PRAGMA foreign_keys = ON`, and that pragma is per-connection
in SQLite (only `init_database` in database.py enables it, on its own
short-lived connection), so foreign-key constraints are not enforced for
any of the operations below. -/

/-- The `valid_types` list of `add_message_simple`. -/
def valid_types : List String := ["human", "ai", "system", "tool", "user", "assistant"]

/-- Role-alias normalization performed by `add_message_simple`
(user becomes human, assistant becomes ai). -/
def normType (t : String) : String :=
  if t = "user" then "human" else if t = "assistant" then "ai" else t

/-- The error text raised for an unrecognized role. -/
def invalidTypeMsg (t : String) : String :=
  s!"Invalid message type: {t}. Must be one of {valid_types}"

/-- Embedding of `ConversationRepository.create_session`: `INSERT OR REPLACE`
into `sessions`; unspecified columns take their schema defaults
(timestamps `CURRENT_TIMESTAMP`, `is_active` 1). -/
def create_session (db : DB) (session_id : String) (name : Option String)
    (metadata : Option (List (String × String))) (now : Nat) : DB :=
  let kept := db.sessions.filter (fun r => r.id ≠ session_id)
  { db with sessions := kept ++ [{ id := session_id, name := name, created_at := now,
                                   updated_at := now, metadata := metadata, is_active := true }] }

/-- Embedding of `ConversationRepository.get_session`:
`SELECT * FROM sessions WHERE id = ? AND is_active = 1`, first row or `None`.
The returned dict carries exactly the row's fields, so the row is returned. -/
def get_session (db : DB) (session_id : String) : Option SessionRow :=
  db.sessions.find? (fun r => r.id == session_id && r.is_active)

/-- Embedding of `ConversationRepository.list_sessions`:
optional `is_active = 1` filter, `ORDER BY updated_at DESC LIMIT ?`. -/
def list_sessions (db : DB) (active_only : Bool) (limit : Nat) : List SessionRow :=
  let rows := if active_only then db.sessions.filter (fun r => r.is_active) else db.sessions
  (sortByKeyDesc (fun r => r.updated_at) rows).take limit

/-- Embedding of `ConversationRepository.add_message_simple`.  Raises
`ValueError` (here: `Except.error`) for an unrecognized role before the
connection is even opened; otherwise bumps the session's `updated_at`
(a no-op `UPDATE` when the session row does not exist: foreign keys are
not enforced on this connection) and inserts the message row, returning
`lastrowid`. -/
def add_message_simple (db : DB) (session_id message_type content : String)
    (metadata : Option MsgMeta) (mode : String) (now : Nat) :
    Except String (DB × Nat) :=
  if message_type ∈ valid_types then
    let mtype := normType message_type
    let sessions := db.sessions.map (fun r =>
      if r.id = session_id then { r with updated_at := now } else r)
    let rid := db.next_message_rowid
    let row : MessageRow := { id := rid, session_id := session_id, message_type := mtype,
                              content := content, metadata := metadata, mode := mode,
                              created_at := now }
    Except.ok ({ db with
                 sessions := sessions,
                 messages := db.messages ++ [row],
                 next_message_rowid := rid + 1 }, rid)
  else
    Except.error (invalidTypeMsg message_type)

/-! Embedding of the LangChain message objects the repository converts
to and from rows. -/

/-- A LangChain `BaseMessage` as the repository consumes it: the four
standard subclasses, plus a catch-all for any other subclass
(which `_get_message_type` maps to `"unknown"`). -/
inductive BaseMessage where
  | human (content : String) (additional_kwargs : List (String × String))
  | ai (content : String) (additional_kwargs : List (String × String)) (tool_calls : List ToolCall)
  | system (content : String) (additional_kwargs : List (String × String))
  | tool (content : String) (tool_call_id : String) (additional_kwargs : List (String × String))
  | other (content : String)
deriving Repr, DecidableEq

/-- Embedding of `ConversationRepository._get_message_type`. -/
def _get_message_type : BaseMessage → String
  | .human _ _ => "human"
  | .ai _ _ _ => "ai"
  | .system _ _ => "system"
  | .tool _ _ _ => "tool"
  | .other _ => "unknown"

/-- Content attribute of a message (`message.content`; every variant has one). -/
def BaseMessage.content : BaseMessage → String
  | .human c _ => c
  | .ai c _ _ => c
  | .system c _ => c
  | .tool c _ _ => c
  | .other c => c

/-- Embedding of `ConversationRepository._get_message_metadata`: collects
`additional_kwargs` when non-empty, `tool_calls` when present and non-empty,
and `tool_call_id` when the attribute exists (only `ToolMessage` has it). -/
def _get_message_metadata : BaseMessage → MsgMeta
  | .human _ kw => ⟨if kw ≠ [] then kw else [], none, none⟩
  | .ai _ kw tc => ⟨if kw ≠ [] then kw else [], if tc ≠ [] then some tc else none, none⟩
  | .system _ kw => ⟨if kw ≠ [] then kw else [], none, none⟩
  | .tool _ tcid kw => ⟨if kw ≠ [] then kw else [], none, some tcid⟩
  | .other _ => ⟨[], none, none⟩

/-- The Python code stores `json.dumps(metadata) if metadata else None`:
an empty dict is stored as SQL `NULL`. -/
def metaOrNull (m : MsgMeta) : Option MsgMeta :=
  if m = ⟨[], none, none⟩ then none else some m

/-- Embedding of `ConversationRepository.add_message`: no role validation,
bumps the session timestamp, and inserts with the type computed by
`_get_message_type` (possibly `"unknown"`).  The `INSERT` names no `mode`
column, so the schema default `'general'` applies. -/
def add_message (db : DB) (session_id : String) (message : BaseMessage) (now : Nat) :
    DB × Nat :=
  let message_type := _get_message_type message
  let content := message.content
  let metadata := metaOrNull (_get_message_metadata message)
  let sessions := db.sessions.map (fun r =>
    if r.id = session_id then { r with updated_at := now } else r)
  let rid := db.next_message_rowid
  let row : MessageRow := { id := rid, session_id := session_id, message_type := message_type,
                            content := content, metadata := metadata, mode := "general",
                            created_at := now }
  ({ db with
     sessions := sessions,
     messages := db.messages ++ [row],
     next_message_rowid := rid + 1 }, rid)

/-- A LangChain message as reconstructed by `_row_to_message` and consumed
by the RAG graph (`message.type` is one of human/ai/system/tool). -/
structure LCMessage where
  type : String
  content : String
  additional_kwargs : List (String × String)
  tool_calls : List ToolCall
  tool_call_id : Option String
deriving Repr, DecidableEq

/-- Embedding of `ConversationRepository._row_to_message`: rebuilds the
LangChain message for the four standard types and returns `None` for any
other stored `message_type`. -/
def _row_to_message (row : MessageRow) : Option LCMessage :=
  let metadata := row.metadata.getD default
  if row.message_type = "human" then
    some ⟨"human", row.content, metadata.additional_kwargs, [], none⟩
  else if row.message_type = "ai" then
    some ⟨"ai", row.content, metadata.additional_kwargs, metadata.tool_calls.getD [], none⟩
  else if row.message_type = "system" then
    some ⟨"system", row.content, metadata.additional_kwargs, [], none⟩
  else if row.message_type = "tool" then
    some ⟨"tool", row.content, metadata.additional_kwargs, [], some (metadata.tool_call_id.getD "")⟩
  else
    none

/-- Rows of one session, in storage order
(`SELECT * FROM messages WHERE session_id = ?`). -/
def sessionRows (db : DB) (session_id : String) : List MessageRow :=
  db.messages.filter (fun m => m.session_id == session_id)

/-- Embedding of `ConversationRepository.get_messages`:
`ORDER BY created_at ASC LIMIT ?`, then each row through `_row_to_message`,
dropping the `None`s. -/
def get_messages (db : DB) (session_id : String) (limit : Nat) : List LCMessage :=
  (((sortByKey (fun m => m.created_at) (sessionRows db session_id)).take limit).filterMap
    _row_to_message)

/-- One entry of the dict list returned by `get_message_history`. -/
structure HistoryEntry where
  id : Nat
  type : String
  content : String
  mode : String
  metadata : MsgMeta
  timestamp : Nat
deriving Repr, DecidableEq

/-- Dict built by `get_message_history` from a row
(`json.loads(metadata)` or the empty dict). -/
def rowToEntry (m : MessageRow) : HistoryEntry :=
  ⟨m.id, m.message_type, m.content, m.mode, m.metadata.getD default, m.created_at⟩

/-- Embedding of `ConversationRepository.get_message_history`:
`ORDER BY created_at ASC LIMIT ?`, every row kept, rendered as dicts. -/
def get_message_history (db : DB) (session_id : String) (limit : Nat) : List HistoryEntry :=
  ((sortByKey (fun m => m.created_at) (sessionRows db session_id)).take limit).map rowToEntry

/-- Embedding of `ConversationRepository.clear_session`: marks the session
inactive (bumping `updated_at`) and deletes the session's messages. -/
def clear_session (db : DB) (session_id : String) (now : Nat) : DB :=
  { db with
    sessions := db.sessions.map (fun r =>
      if r.id = session_id then { r with is_active := false, updated_at := now } else r),
    messages := db.messages.filter (fun m => m.session_id ≠ session_id) }

/-- A task dict passed to `save_checklist`; `task.get` chains are modelled
with `Option` fields. -/
structure TaskInput where
  task_text : Option String
  text : Option String
  is_completed : Option Bool
  position : Option Nat
deriving Repr, DecidableEq

/-- The insertion loop of `save_checklist`: one row per task, enumerated
positions as defaults, consecutive rowids. -/
def insertTasks (session_id : String) (message_id : Nat) (now : Nat) :
    Nat → Nat → List TaskInput → List ChecklistRow × Nat
  | rid, _, [] => ([], rid)
  | rid, idx, t :: ts =>
    let row : ChecklistRow :=
      { id := rid, session_id := session_id, message_id := message_id,
        task_text := t.task_text.getD (t.text.getD ""),
        is_completed := t.is_completed.getD false,
        position := t.position.getD idx,
        created_at := now, updated_at := now }
    let rest := insertTasks session_id message_id now (rid + 1) (idx + 1) ts
    (row :: rest.1, rest.2)

/-- Embedding of `ConversationRepository.save_checklist`: first deletes all
existing items for the `(session, message)` pair, then inserts the new
tasks; returns `True` (no statement in the transaction can fail here). -/
def save_checklist (db : DB) (session_id : String) (message_id : Nat)
    (tasks : List TaskInput) (now : Nat) : DB × Bool :=
  let remaining := db.checklists.filter (fun r =>
    ¬(r.session_id = session_id ∧ r.message_id = message_id))
  let inserted := insertTasks session_id message_id now db.next_checklist_rowid 0 tasks
  ({ db with checklists := remaining ++ inserted.1, next_checklist_rowid := inserted.2 }, true)

/-- One entry of the dict list returned by `get_checklist`. -/
structure ChecklistItem where
  id : Nat
  taskText : String
  isCompleted : Bool
  position : Nat
  createdAt : Nat
  updatedAt : Nat
deriving Repr, DecidableEq

/-- Embedding of `ConversationRepository.get_checklist`: rows of the
`(session, message)` pair, `ORDER BY position ASC`, rendered as dicts. -/
def get_checklist (db : DB) (session_id : String) (message_id : Nat) : List ChecklistItem :=
  let rows := db.checklists.filter (fun r =>
    r.session_id == session_id && r.message_id == message_id)
  (sortByKey (fun r => r.position) rows).map (fun r =>
    ⟨r.id, r.task_text, r.is_completed, r.position, r.created_at, r.updated_at⟩)

/-! Correctness lemmas for the insertion sorts. -/

theorem insertByKey_perm {α : Type} (key : α → Nat) (a : α) (l : List α) :
    List.Perm (insertByKey key a l) (a :: l) := by
  induction l with
  | nil => exact List.Perm.refl _
  | cons b bs ih =>
    unfold insertByKey
    split
    · exact List.Perm.refl _
    · exact (ih.cons b).trans (List.Perm.swap a b bs)

theorem sortByKey_perm {α : Type} (key : α → Nat) (l : List α) :
    List.Perm (sortByKey key l) l := by
  induction l with
  | nil => exact List.Perm.refl _
  | cons a as ih => exact (insertByKey_perm key a (sortByKey key as)).trans (ih.cons a)

theorem mem_sortByKey {α : Type} (key : α → Nat) (x : α) (l : List α) :
    x ∈ sortByKey key l ↔ x ∈ l :=
  (sortByKey_perm key l).mem_iff

theorem pairwise_insertByKey {α : Type} (key : α → Nat) (a : α) {l : List α}
    (h : l.Pairwise (fun x y => key x ≤ key y)) :
    (insertByKey key a l).Pairwise (fun x y => key x ≤ key y) := by
  induction l with
  | nil => simp [insertByKey]
  | cons b bs ih =>
    rw [List.pairwise_cons] at h
    unfold insertByKey
    split
    next hle =>
      rw [List.pairwise_cons]
      refine ⟨?_, List.pairwise_cons.mpr h⟩
      intro x hx
      rcases List.mem_cons.mp hx with rfl | hx
      · exact hle
      · exact le_trans hle (h.1 x hx)
    next hgt =>
      rw [List.pairwise_cons]
      refine ⟨?_, ih h.2⟩
      intro x hx
      have hx' := (insertByKey_perm key a bs).mem_iff.mp hx
      rcases List.mem_cons.mp hx' with rfl | hx2
      · exact le_of_not_le hgt
      · exact h.1 x hx2

theorem sortByKey_pairwise {α : Type} (key : α → Nat) (l : List α) :
    (sortByKey key l).Pairwise (fun x y => key x ≤ key y) := by
  induction l with
  | nil => simp [sortByKey]
  | cons a as ih => exact pairwise_insertByKey key a ih

theorem sortByKey_of_pairwise {α : Type} (key : α → Nat) {l : List α}
    (h : l.Pairwise (fun x y => key x ≤ key y)) : sortByKey key l = l := by
  induction l with
  | nil => rfl
  | cons a as ih =>
    rw [List.pairwise_cons] at h
    show insertByKey key a (sortByKey key as) = a :: as
    rw [ih h.2]
    cases as with
    | nil => rfl
    | cons b bs =>
      show (if key a ≤ key b then _ else _) = _
      rw [if_pos (h.1 b (List.mem_cons_self b bs))]

theorem insertByKeyDesc_perm {α : Type} (key : α → Nat) (a : α) (l : List α) :
    List.Perm (insertByKeyDesc key a l) (a :: l) := by
  induction l with
  | nil => exact List.Perm.refl _
  | cons b bs ih =>
    unfold insertByKeyDesc
    split
    · exact List.Perm.refl _
    · exact (ih.cons b).trans (List.Perm.swap a b bs)

theorem sortByKeyDesc_perm {α : Type} (key : α → Nat) (l : List α) :
    List.Perm (sortByKeyDesc key l) l := by
  induction l with
  | nil => exact List.Perm.refl _
  | cons a as ih => exact (insertByKeyDesc_perm key a (sortByKeyDesc key as)).trans (ih.cons a)

theorem mem_sortByKeyDesc {α : Type} (key : α → Nat) (x : α) (l : List α) :
    x ∈ sortByKeyDesc key l ↔ x ∈ l :=
  (sortByKeyDesc_perm key l).mem_iff

theorem pairwise_insertByKeyDesc {α : Type} (key : α → Nat) (a : α) {l : List α}
    (h : l.Pairwise (fun x y => key y ≤ key x)) :
    (insertByKeyDesc key a l).Pairwise (fun x y => key y ≤ key x) := by
  induction l with
  | nil => simp [insertByKeyDesc]
  | cons b bs ih =>
    rw [List.pairwise_cons] at h
    unfold insertByKeyDesc
    split
    next hle =>
      rw [List.pairwise_cons]
      refine ⟨?_, List.pairwise_cons.mpr h⟩
      intro x hx
      rcases List.mem_cons.mp hx with rfl | hx
      · exact hle
      · exact le_trans (h.1 x hx) hle
    next hgt =>
      rw [List.pairwise_cons]
      refine ⟨?_, ih h.2⟩
      intro x hx
      have hx' := (insertByKeyDesc_perm key a bs).mem_iff.mp hx
      rcases List.mem_cons.mp hx' with rfl | hx2
      · exact le_of_not_le hgt
      · exact h.1 x hx2

theorem sortByKeyDesc_pairwise {α : Type} (key : α → Nat) (l : List α) :
    (sortByKeyDesc key l).Pairwise (fun x y => key y ≤ key x) := by
  induction l with
  | nil => simp [sortByKeyDesc]
  | cons a as ih => exact pairwise_insertByKeyDesc key a ih

/-! Concrete databases reused by several theorems below. -/

/-- A freshly initialized, empty database (SQLite rowids start at 1). -/
def emptyDB : DB := ⟨[], [], [], 1, 1⟩

/-- A database with one active session `"s"` holding one human message. -/
def dbOneActive : DB :=
  ⟨[⟨"s", none, 0, 0, none, true⟩], [⟨1, "s", "human", "hi", none, "general", 0⟩], [], 2, 1⟩

/-- C1: the claim says `add_message_simple` with a `session_id` that matches
no session row fails with an integrity error and inserts nothing.  The code
does the opposite: the repository opens a fresh SQLite connection per call
and never issues `PRAGMA foreign_keys = ON` (init_database enables it only
on its own initialization connection, and the pragma is per-connection), so
the insert succeeds and the message row is stored with a dangling
`session_id`.  Evaluated here on an empty database: the call returns
rowid 1 and the row is present. -/
theorem add_message_simple_missing_session_inserts :
    add_message_simple emptyDB "ghost" "human" "hi" none "general" 5 =
      Except.ok ({ emptyDB with
                   messages := [⟨1, "ghost", "human", "hi", none, "general", 5⟩],
                   next_message_rowid := 2 }, 1) ∧
    (Except.map (fun p => (sessionRows p.1 "ghost").length)
      (add_message_simple emptyDB "ghost" "human" "hi" none "general" 5)) = Except.ok 1 := by
  constructor
  · rfl
  · rfl

/-- C7: for any role string outside the accepted list, `add_message_simple`
raises `ValueError` before opening the database connection, so no message
row is inserted and no session timestamp is touched (the error return here
carries no new database state). -/
theorem add_message_simple_rejects_unknown_role
    (db : DB) (sid : String) (t : String) (c : String) (meta : Option MsgMeta)
    (mode : String) (now : Nat) (h : t ∉ valid_types) :
    add_message_simple db sid t c meta mode now = Except.error (invalidTypeMsg t) := by
  unfold add_message_simple
  rw [if_neg h]

theorem add_message_simple_rejects_unknown_role_witness :
    "robot" ∉ valid_types ∧
      add_message_simple emptyDB "s" "robot" "hi" none "general" 0 =
        Except.error (invalidTypeMsg "robot") :=
  ⟨by decide,
   add_message_simple_rejects_unknown_role emptyDB "s" "robot" "hi" none "general" 0 (by decide)⟩

/-- C6: appending with role `"user"` is literally the same operation as
appending with role `"human"` (and `"assistant"` the same as `"ai"`): the
alias is normalized before any write, so the resulting database states and
returned rowids coincide; reading the history back yields role `"human"`.
The last conjunct evaluates the read-back on a concrete session. -/
theorem role_aliases_indistinguishable :
    (∀ (db : DB) (sid c : String) (meta : Option MsgMeta) (mode : String) (now : Nat),
      add_message_simple db sid "user" c meta mode now =
        add_message_simple db sid "human" c meta mode now ∧
      add_message_simple db sid "assistant" c meta mode now =
        add_message_simple db sid "ai" c meta mode now) ∧
    (Except.map (fun p => get_message_history p.1 "s" 100)
        (add_message_simple dbOneActive "s" "user" "hello" none "general" 3)) =
      Except.ok [⟨1, "human", "hi", "general", default, 0⟩,
                 ⟨2, "human", "hello", "general", default, 3⟩] := by
  constructor
  · intro db sid c meta mode now
    constructor
    · simp [add_message_simple, normType, valid_types]
    · simp [add_message_simple, normType, valid_types]
  · rfl

/-! Checklist replace semantics (C4). -/

theorem insertTasks_length (S : String) (M now : Nat) (ts : List TaskInput) :
    ∀ (rid idx : Nat), (insertTasks S M now rid idx ts).1.length = ts.length := by
  induction ts with
  | nil => intro rid idx; rfl
  | cons t ts ih => intro rid idx; simp [insertTasks, ih]

theorem insertTasks_mem (S : String) (M now : Nat) (ts : List TaskInput) :
    ∀ (rid idx : Nat) (r : ChecklistRow), r ∈ (insertTasks S M now rid idx ts).1 →
      r.session_id = S ∧ r.message_id = M ∧ rid ≤ r.id := by
  induction ts with
  | nil => intro rid idx r h; cases h
  | cons t ts ih =>
    intro rid idx r h
    rw [insertTasks] at h
    rcases List.mem_cons.mp h with rfl | h2
    · exact ⟨rfl, rfl, le_refl _⟩
    · obtain ⟨h1, h2', h3⟩ := ih (rid + 1) (idx + 1) r h2
      exact ⟨h1, h2', le_trans (Nat.le_succ rid) h3⟩

theorem get_checklist_save (db : DB) (S : String) (M : Nat)
    (tasks : List TaskInput) (now : Nat) :
    get_checklist (save_checklist db S M tasks now).1 S M =
      (sortByKey (fun r => r.position)
        (insertTasks S M now db.next_checklist_rowid 0 tasks).1).map
        (fun r => ⟨r.id, r.task_text, r.is_completed, r.position, r.created_at, r.updated_at⟩) := by
  unfold get_checklist save_checklist
  simp only [List.filter_append]
  have h1 : (db.checklists.filter (fun r =>
      ¬(r.session_id = S ∧ r.message_id = M))).filter
      (fun r => r.session_id == S && r.message_id == M) = [] := by
    rw [List.filter_filter]
    rw [List.filter_eq_nil_iff]
    intro a _
    by_cases hS : a.session_id = S <;> by_cases hM : a.message_id = M <;> simp [hS, hM]
  have h2 : (insertTasks S M now db.next_checklist_rowid 0 tasks).1.filter
      (fun r => r.session_id == S && r.message_id == M) =
      (insertTasks S M now db.next_checklist_rowid 0 tasks).1 := by
    rw [List.filter_eq_self]
    intro a ha
    obtain ⟨hs, hm, _⟩ := insertTasks_mem S M now tasks db.next_checklist_rowid 0 a ha
    simp [hs, hm]
  rw [h1, h2]
  rfl

/-- C4: `save_checklist` is a full replace for the `(session, message)` pair:
the checklist read back afterwards has exactly one item per task just saved,
every surviving item is one of the freshly inserted rows (its rowid is at
least the allocation counter before the save, so no prior item survives),
and in particular saving 3 items and then 1 item leaves exactly 1. -/
theorem save_checklist_full_replace (db : DB) (S : String) (M : Nat)
    (tasks : List TaskInput) (now : Nat) (t1 t2 t3 u : TaskInput) (n1 n2 : Nat) :
    (get_checklist (save_checklist db S M tasks now).1 S M).length = tasks.length ∧
    ((get_checklist (save_checklist db S M tasks now).1 S M).all
      (fun it => db.next_checklist_rowid ≤ it.id)) = true ∧
    (get_checklist
      (save_checklist (save_checklist db S M [t1, t2, t3] n1).1 S M [u] n2).1 S M).length = 1 := by
  have hlen : ∀ (db' : DB) (ts : List TaskInput) (n' : Nat),
      (get_checklist (save_checklist db' S M ts n').1 S M).length = ts.length := by
    intro db' ts n'
    rw [get_checklist_save]
    rw [List.length_map]
    rw [(sortByKey_perm (fun r : ChecklistRow => r.position)
      ((insertTasks S M n' db'.next_checklist_rowid 0 ts).1)).length_eq]
    exact insertTasks_length S M n' ts db'.next_checklist_rowid 0
  refine ⟨hlen db tasks now, ?_, hlen _ [u] n2⟩
  rw [List.all_eq_true]
  intro it hit
  rw [get_checklist_save] at hit
  obtain ⟨r, hr, rfl⟩ := List.mem_map.mp hit
  have hr2 := (mem_sortByKey (fun r => r.position) r _).mp hr
  obtain ⟨_, _, hle⟩ := insertTasks_mem S M now tasks db.next_checklist_rowid 0 r hr2
  simpa using hle

/-! Soft-delete behaviour of `clear_session` (C5). -/

theorem clear_session_sessionRows (db : DB) (sid : String) (n : Nat) :
    sessionRows (clear_session db sid n) sid = [] := by
  unfold sessionRows clear_session
  simp only [List.filter_filter]
  rw [List.filter_eq_nil_iff]
  intro a _
  by_cases h : a.session_id = sid <;> simp [h]

theorem get_session_clear (db : DB) (sid : String) (n : Nat) :
    get_session (clear_session db sid n) sid = none := by
  unfold get_session clear_session
  simp only []
  rw [List.find?_eq_none]
  intro a ha
  rw [List.mem_map] at ha
  obtain ⟨r, _, rfl⟩ := ha
  by_cases h : r.id = sid <;> simp [h]

theorem clear_session_find_flag (db : DB) (sid : String) (n : Nat) :
    (((clear_session db sid n).sessions.find? (fun r => r.id == sid)).map
      (fun r => r.is_active)) =
      ((db.sessions.find? (fun r => r.id == sid)).map (fun _ => false)) := by
  show (((db.sessions.map _).find? _).map _) = _
  induction db.sessions with
  | nil => rfl
  | cons r rs ih =>
    by_cases h : r.id = sid
    · simp [h]
    · simp only [List.map_cons]
      rw [if_neg h]
      rw [List.find?_cons_of_neg, List.find?_cons_of_neg]
      · exact ih
      · simp [h]
      · simp [h]

theorem list_sessions_clear_absent (db : DB) (sid : String) (n limit : Nat) :
    ((list_sessions (clear_session db sid n) true limit).all (fun r => r.id != sid)) = true := by
  rw [List.all_eq_true]
  intro r hr
  unfold list_sessions at hr
  simp only [if_pos rfl] at hr
  have h1 := List.mem_of_mem_take hr
  have h2 := (mem_sortByKeyDesc (fun r => r.updated_at) r _).mp h1
  have h3 := List.mem_filter.mp h2
  obtain ⟨r0, _, rfl⟩ := List.mem_map.mp h3.1
  by_cases h : r0.id = sid
  · exfalso
    have := h3.2
    simp [h] at this
  · simp [h]

theorem clear_session_messages_idem (db : DB) (sid : String) (n1 n2 : Nat) :
    (clear_session (clear_session db sid n1) sid n2).messages =
      (clear_session db sid n1).messages := by
  show (db.messages.filter _).filter _ = db.messages.filter _
  rw [List.filter_filter]
  apply List.filter_congr
  intro a _
  by_cases h : a.session_id = sid <;> simp [h]

/-- Projection of a session row onto everything except `updated_at`. -/
def stripUpdated (r : SessionRow) :
    String × Option String × Nat × Option (List (String × String)) × Bool :=
  (r.id, r.name, r.created_at, r.metadata, r.is_active)

theorem clear_session_strip_idem (db : DB) (sid : String) (n1 n2 : Nat) :
    (clear_session (clear_session db sid n1) sid n2).sessions.map stripUpdated =
      (clear_session db sid n1).sessions.map stripUpdated := by
  show ((db.sessions.map _).map _).map _ = (db.sessions.map _).map _
  simp only [List.map_map]
  apply List.map_congr_left
  intro r _
  by_cases h : r.id = sid <;> simp [Function.comp, stripUpdated, h]

/-- C5 counterexample: the claim says a cleared session "remains queryable by
its identifier", but `get_session` (the store's only lookup by identifier)
filters on `is_active = 1`, so after the first clear the lookup already
returns `None` while it returned the row before. -/
theorem clear_session_not_queryable_counterexample :
    get_session dbOneActive "s" ≠ none ∧
      get_session (clear_session dbOneActive "s" 1) "s" = none := by
  constructor
  · decide
  · rfl

/-- C5 (amended): clearing twice is a no-op on the second call for the
observable state the claim enumerates, except that the session is not
queryable through `get_session` (which returns only active sessions) after
either clear: message count is 0 after both clears, the session row is
preserved (same row set, merely deactivated in place) with `is_active`
false, the session is absent from active listings after both clears, and
the second clear changes nothing besides refreshing `updated_at`. -/
theorem clear_session_soft_delete_idempotent (db : DB) (sid : String) (n1 n2 limit : Nat) :
    sessionRows (clear_session db sid n1) sid = [] ∧
    sessionRows (clear_session (clear_session db sid n1) sid n2) sid = [] ∧
    (((clear_session db sid n1).sessions.find? (fun r => r.id == sid)).map
      (fun r => r.is_active)) =
      ((db.sessions.find? (fun r => r.id == sid)).map (fun _ => false)) ∧
    get_session (clear_session db sid n1) sid = none ∧
    get_session (clear_session (clear_session db sid n1) sid n2) sid = none ∧
    ((list_sessions (clear_session db sid n1) true limit).all (fun r => r.id != sid)) = true ∧
    ((list_sessions (clear_session (clear_session db sid n1) sid n2) true limit).all
      (fun r => r.id != sid)) = true ∧
    (clear_session (clear_session db sid n1) sid n2).messages =
      (clear_session db sid n1).messages ∧
    (clear_session (clear_session db sid n1) sid n2).sessions.map stripUpdated =
      (clear_session db sid n1).sessions.map stripUpdated :=
  ⟨clear_session_sessionRows db sid n1,
   clear_session_sessionRows _ sid n2,
   clear_session_find_flag db sid n1,
   get_session_clear db sid n1,
   get_session_clear _ sid n2,
   list_sessions_clear_absent db sid n1 limit,
   list_sessions_clear_absent _ sid n2 limit,
   clear_session_messages_idem db sid n1 n2,
   clear_session_strip_idem db sid n1 n2⟩

/-- C10: every message `get_messages` returns has one of the four standard
roles, because `_row_to_message` yields `None` for any other stored
`message_type` and `get_messages` drops the `None`s.  Concretely, storing a
nonstandard message object through `add_message` (stored with type
`"unknown"`) leaves `get_messages` unchanged while the session's stored row
count grows by one, so the replayed history can be shorter than the stored
history. -/
theorem get_messages_role_closure (db : DB) (sid : String) (limit : Nat) :
    ((get_messages db sid limit).all
      (fun m => m.type == "human" || m.type == "ai" || m.type == "system" || m.type == "tool"))
      = true ∧
    get_messages ((add_message dbOneActive "s" (BaseMessage.other "x") 1).1) "s" 100 =
      get_messages dbOneActive "s" 100 ∧
    (sessionRows ((add_message dbOneActive "s" (BaseMessage.other "x") 1).1) "s").length =
      (sessionRows dbOneActive "s").length + 1 := by
  refine ⟨?_, rfl, rfl⟩
  rw [List.all_eq_true]
  intro m hm
  obtain ⟨row, _, hrow⟩ := List.mem_filterMap.mp hm
  unfold _row_to_message at hrow
  split_ifs at hrow <;> cases hrow <;> simp

/-! The generation-step message filter of the orchestrator (C3). -/

/-- Embedding of the `conversation_messages` filter in the `generate` node of
`_setup_rag_graph` (rag_service.py): keep messages whose type is human or
system, or ai with an empty `tool_calls` list (`not message.tool_calls`). -/
def conversationMessages (msgs : List LCMessage) : List LCMessage :=
  msgs.filter (fun m => m.type == "human" || m.type == "system" ||
    (m.type == "ai" && m.tool_calls.isEmpty))

/-- The prompt list the `generate` node sends to the model: a fresh system
message holding the mode prompt plus retrieved content, then the filtered
conversation history. -/
def generatePrompt (system_message_content : String) (msgs : List LCMessage) : List LCMessage :=
  ⟨"system", system_message_content, [], [], none⟩ :: conversationMessages msgs

/-- C3: in the Generate step, for every message history drawn from the four
LangChain message types, the replayed list keeps exactly the human, system,
and tool-call-free ai messages: it equals the original list with the tool
messages and the tool-invoking ai messages removed, and it preserves the
original order (sublist). -/
theorem generate_retains_exactly_non_tool_messages (sys : String) (msgs : List LCMessage)
    (h : ∀ m ∈ msgs, m.type = "human" ∨ m.type = "ai" ∨ m.type = "system" ∨ m.type = "tool") :
    generatePrompt sys msgs =
      ⟨"system", sys, [], [], none⟩ ::
        msgs.filter (fun m => !(m.type == "tool" || (m.type == "ai" && !m.tool_calls.isEmpty))) ∧
    List.Sublist (conversationMessages msgs) msgs := by
  constructor
  · unfold generatePrompt conversationMessages
    congr 1
    apply List.filter_congr
    intro m hm
    rcases h m hm with ht | ht | ht | ht <;>
      rcases hb : m.tool_calls.isEmpty <;> simp [ht, hb]
  · exact List.filter_sublist _

/-- Concrete four-turn history exercising every message kind: a user turn, a
tool-invoking assistant turn, the tool result, and a final assistant answer. -/
def demoMsgs : List LCMessage :=
  [⟨"human", "q", [], [], none⟩,
   ⟨"ai", "", [], [⟨"retrieve", [("query", "q")], "1"⟩], none⟩,
   ⟨"tool", "passages", [], [], some "1"⟩,
   ⟨"ai", "answer", [], [], none⟩]

theorem generate_retains_exactly_non_tool_messages_witness :
    (∀ m ∈ demoMsgs, m.type = "human" ∨ m.type = "ai" ∨ m.type = "system" ∨ m.type = "tool") ∧
    List.Sublist (conversationMessages demoMsgs) demoMsgs :=
  ⟨by decide, (generate_retains_exactly_non_tool_messages "SYS" demoMsgs (by decide)).2⟩

/-! History ordering under sequences of appends (C2). -/

/-- Reduction of `add_message_simple` for an accepted role. -/
theorem add_message_simple_ok (db : DB) (sid t c : String) (meta : Option MsgMeta)
    (mode : String) (now : Nat) (hv : t ∈ valid_types) :
    add_message_simple db sid t c meta mode now =
      Except.ok ({ db with
                   sessions := db.sessions.map (fun r =>
                     if r.id = sid then { r with updated_at := now } else r),
                   messages := db.messages ++
                     [⟨db.next_message_rowid, sid, normType t, c, meta, mode, now⟩],
                   next_message_rowid := db.next_message_rowid + 1 }, db.next_message_rowid) := by
  unfold add_message_simple
  rw [if_pos hv]

/-- Reduction of `add_message_simple` for a rejected role. -/
theorem add_message_simple_error (db : DB) (sid t c : String) (meta : Option MsgMeta)
    (mode : String) (now : Nat) (hv : t ∉ valid_types) :
    add_message_simple db sid t c meta mode now = Except.error (invalidTypeMsg t) := by
  unfold add_message_simple
  rw [if_neg hv]

/-- One call to `add_message_simple`, as issued by a caller of the store. -/
structure AppendReq where
  sid : String
  mtype : String
  content : String
  metadata : Option MsgMeta
  mode : String
  now : Nat
deriving Repr, DecidableEq

/-- Run a sequence of append requests.  A request with an invalid role
raises before any write, leaving the database unchanged, and the run
continues with the next request. -/
def runAppends (db : DB) : List AppendReq → DB
  | [] => db
  | r :: rs =>
    match add_message_simple db r.sid r.mtype r.content r.metadata r.mode r.now with
    | .ok (db', _) => runAppends db' rs
    | .error _ => runAppends db rs

/-- The message rows a run of appends inserts, with rowids from `rid` on. -/
def newRows (rid : Nat) : List AppendReq → List MessageRow
  | [] => []
  | r :: rs =>
    if r.mtype ∈ valid_types then
      ⟨rid, r.sid, normType r.mtype, r.content, r.metadata, r.mode, r.now⟩ :: newRows (rid + 1) rs
    else newRows rid rs

theorem runAppends_messages (rs : List AppendReq) :
    ∀ db : DB, (runAppends db rs).messages = db.messages ++ newRows db.next_message_rowid rs := by
  induction rs with
  | nil => intro db; simp [runAppends, newRows]
  | cons r rs ih =>
    intro db
    by_cases hv : r.mtype ∈ valid_types
    · simp only [runAppends,
        add_message_simple_ok db r.sid r.mtype r.content r.metadata r.mode r.now hv]
      rw [ih]
      rw [newRows, if_pos hv]
      simp
    · simp only [runAppends,
        add_message_simple_error db r.sid r.mtype r.content r.metadata r.mode r.now hv]
      rw [ih]
      rw [newRows, if_neg hv]

theorem sessionRows_runAppends (rs : List AppendReq) (db : DB) (sid : String) :
    sessionRows (runAppends db rs) sid =
      sessionRows db sid ++
        (newRows db.next_message_rowid rs).filter (fun m => m.session_id == sid) := by
  unfold sessionRows
  rw [runAppends_messages rs db, List.filter_append]

theorem newRows_created_mem (rs : List AppendReq) :
    ∀ (rid : Nat) (m : MessageRow), m ∈ newRows rid rs → ∃ r ∈ rs, m.created_at = r.now := by
  induction rs with
  | nil => intro rid m h; cases h
  | cons r rs ih =>
    intro rid m h
    rw [newRows] at h
    by_cases hv : r.mtype ∈ valid_types
    · rw [if_pos hv] at h
      rcases List.mem_cons.mp h with rfl | h2
      · exact ⟨r, List.mem_cons_self r rs, rfl⟩
      · obtain ⟨r', hr', he⟩ := ih (rid + 1) m h2
        exact ⟨r', List.mem_cons_of_mem r hr', he⟩
    · rw [if_neg hv] at h
      obtain ⟨r', hr', he⟩ := ih rid m h
      exact ⟨r', List.mem_cons_of_mem r hr', he⟩

theorem newRows_pairwise_created (rs : List AppendReq)
    (h : rs.Pairwise (fun a b => a.now < b.now)) :
    ∀ rid : Nat, (newRows rid rs).Pairwise (fun x y => x.created_at < y.created_at) := by
  induction rs with
  | nil => intro rid; simp [newRows]
  | cons r rs ih =>
    rw [List.pairwise_cons] at h
    intro rid
    rw [newRows]
    by_cases hv : r.mtype ∈ valid_types
    · rw [if_pos hv]
      rw [List.pairwise_cons]
      refine ⟨?_, ih h.2 (rid + 1)⟩
      intro m hm
      obtain ⟨r', hr', he⟩ := newRows_created_mem rs (rid + 1) m hm
      show r.now < m.created_at
      rw [he]
      exact h.1 r' hr'
    · rw [if_neg hv]
      exact ih h.2 rid

/-- Projection of a stored message row onto the fields the history claim
talks about: role, content, mode, and creation timestamp. -/
def projRow (m : MessageRow) : String × String × String × Nat :=
  (m.message_type, m.content, m.mode, m.created_at)

/-- The appends of a run that actually land in session `sid` (valid role,
matching session), projected like `projRow`, in request order. -/
def scriptEntries (sid : String) (rs : List AppendReq) :
    List (String × String × String × Nat) :=
  (rs.filter (fun r => r.sid == sid && decide (r.mtype ∈ valid_types))).map
    (fun r => (normType r.mtype, r.content, r.mode, r.now))

theorem newRows_filter_proj (sid : String) (rs : List AppendReq) :
    ∀ rid : Nat,
      ((newRows rid rs).filter (fun m => m.session_id == sid)).map projRow =
        scriptEntries sid rs := by
  induction rs with
  | nil => intro rid; rfl
  | cons r rs ih =>
    intro rid
    rw [newRows]
    have hrhs : scriptEntries sid (r :: rs) =
        (if r.sid == sid && decide (r.mtype ∈ valid_types) then
          [(normType r.mtype, r.content, r.mode, r.now)] else []) ++ scriptEntries sid rs := by
      unfold scriptEntries
      rw [List.filter_cons]
      split <;> simp
    rw [hrhs]
    by_cases hv : r.mtype ∈ valid_types
    · rw [if_pos hv]
      by_cases hs : r.sid = sid
      · simp [List.filter_cons, hs, hv, projRow, ih (rid + 1)]
      · simp [List.filter_cons, hs, hv, ih (rid + 1)]
    · rw [if_neg hv]
      simp [hv, ih rid]

/-- C2: `get_message_history` returns entries in non-decreasing creation
order for any database state; and for any run of appends starting from a
state with no rows in the target session, with strictly increasing
timestamps and arbitrary interleaved appends to other sessions, the history
returned for any `limit` is exactly the oldest `limit` appended messages of
that session, in append order (oldest kept, newest dropped). -/
theorem get_history_ordering (db : DB) (sid : String) (limit : Nat)
    (db0 : DB) (rs : List AppendReq)
    (h1 : sessionRows db0 sid = [])
    (h2 : rs.Pairwise (fun a b => a.now < b.now)) :
    (get_message_history db sid limit).Pairwise
      (fun e1 e2 => e1.timestamp ≤ e2.timestamp) ∧
    (get_message_history (runAppends db0 rs) sid limit).map
      (fun e => (e.type, e.content, e.mode, e.timestamp)) =
      (scriptEntries sid rs).take limit := by
  constructor
  · unfold get_message_history
    rw [List.pairwise_map]
    apply List.Pairwise.sublist (List.take_sublist _ _)
    exact sortByKey_pairwise (fun m => m.created_at) (sessionRows db sid)
  · unfold get_message_history
    rw [sessionRows_runAppends rs db0 sid, h1, List.nil_append]
    have hpw : ((newRows db0.next_message_rowid rs).filter
        (fun m => m.session_id == sid)).Pairwise
        (fun x y => x.created_at ≤ y.created_at) :=
      ((newRows_pairwise_created rs h2 db0.next_message_rowid).filter _).imp le_of_lt
    rw [sortByKey_of_pairwise (fun m : MessageRow => m.created_at) hpw]
    rw [List.map_take, List.map_take]
    rw [List.map_map]
    have hproj : List.map
        ((fun e : HistoryEntry => (e.type, e.content, e.mode, e.timestamp)) ∘ rowToEntry)
        ((newRows db0.next_message_rowid rs).filter (fun m => m.session_id == sid)) =
        scriptEntries sid rs := by
      rw [← newRows_filter_proj sid rs db0.next_message_rowid]
      apply List.map_congr_left
      intro m _
      rfl
    rw [hproj]

/-- Three appends to session `"s"` with an interleaved append to another
session, with strictly increasing clock values. -/
def demoScript : List AppendReq :=
  [⟨"s", "user", "m1", none, "general", 10⟩,
   ⟨"other", "user", "x", none, "general", 11⟩,
   ⟨"s", "assistant", "m2", none, "general", 12⟩,
   ⟨"s", "user", "m3", none, "general", 13⟩]

theorem get_history_ordering_witness :
    sessionRows emptyDB "s" = [] ∧
    demoScript.Pairwise (fun a b => a.now < b.now) ∧
    (get_message_history (runAppends emptyDB demoScript) "s" 2).map
      (fun e => (e.type, e.content, e.mode, e.timestamp)) =
      (scriptEntries "s" demoScript).take 2 :=
  ⟨rfl, by decide,
   (get_history_ordering emptyDB "s" 2 emptyDB demoScript rfl (by decide)).2⟩

/-! Embedding of the Activity Analyzer `_analyze_activity_context`
(rag_service.py).  Python's `datetime.fromtimestamp` is modelled in UTC: a
calendar day is the epoch-day index `ts / 86400000`, and the `%H:%M`
rendering is derived from the same millisecond timestamp; the code stores
the already-formatted clock strings in its per-day dicts, the embedding
stores the raw milliseconds and formats at output time, which yields the
same rendered text.  The `datetime.now()` used only for the
Today/Yesterday labels is the explicit `today` parameter (the epoch-day
index of the current date).  Python float formatting (`:.1f`) is rendered
with exact integer arithmetic truncated to one decimal; no claim depends
on those digits. -/

/-- An activity event record; missing `data.get` fields are `none` (for the
string fields) or the Python defaults `0` / `False`. -/
structure ActivityEvent where
  timestamp : Nat
  etype : String
  application_name : Option String
  window_title : Option String
  idle_duration : Nat
  was_idle : Bool
deriving Repr, DecidableEq

/-- Calendar day of an epoch-millisecond timestamp. -/
def dayOf (ts : Nat) : Nat := ts / 86400000

/-- One element of a day's `window_changes` list: event time, application
name (after the `'Unknown'` default), window title (after the `''`
default). -/
structure WindowChange where
  time : Nat
  app : String
  window : String
deriving Repr, DecidableEq

/-- Per-day bucket: `window_changes`, `idle_periods` as (time, duration),
and `apps_used` (a Python set; modelled as a first-occurrence list, it is
only ever tested for emptiness). -/
structure DayActs where
  window_changes : List WindowChange
  idle_periods : List (Nat × Nat)
  apps_used : List String
deriving Repr, DecidableEq

/-- The fresh bucket inserted when a day key is first seen. -/
def emptyDay : DayActs := ⟨[], [], []⟩

/-- The per-event update of a day's bucket: window changes are recorded
with the (defaulted) application and title, qualifying idle events
(`was_idle` and more than 60 seconds) are recorded, anything else leaves
the bucket unchanged. -/
def stepDay (ev : ActivityEvent) (a : DayActs) : DayActs :=
  if ev.etype = "window_change" then
    let app := ev.application_name.getD "Unknown"
    let w := ev.window_title.getD ""
    { a with
      window_changes := a.window_changes ++ [⟨ev.timestamp, app, w⟩],
      apps_used := if app ∈ a.apps_used then a.apps_used else a.apps_used ++ [app] }
  else if ev.etype = "idle" then
    if ev.was_idle ∧ ev.idle_duration > 60 then
      { a with idle_periods := a.idle_periods ++ [(ev.timestamp, ev.idle_duration)] }
    else a
  else a

/-- Update of the insertion-ordered `activities_by_day` dict at day `d`
(creating the bucket when absent, as the `not in` check does). -/
def updateDay (d : Nat) (ev : ActivityEvent) : List (Nat × DayActs) → List (Nat × DayActs)
  | [] => [(d, stepDay ev emptyDay)]
  | (k, a) :: rest =>
    if k = d then (k, stepDay ev a) :: rest else (k, a) :: updateDay d ev rest

/-- The grouping loop of the analyzer; events with a falsy (zero)
timestamp are skipped entirely. -/
def groupDays (logs : List ActivityEvent) : List (Nat × DayActs) :=
  logs.foldl (fun acc ev =>
    if ev.timestamp ≠ 0 then updateDay (dayOf ev.timestamp) ev acc else acc) []

/-- The `app_switches` accumulator: (application, timestamp) for every
window-change event with a nonzero timestamp, in event order. -/
def appSwitches (logs : List ActivityEvent) : List (String × Nat) :=
  logs.filterMap (fun ev =>
    if ev.timestamp ≠ 0 ∧ ev.etype = "window_change" then
      some (ev.application_name.getD "Unknown", ev.timestamp)
    else none)

/-- The `idle_periods` accumulator: idle durations that pass the
`was_idle` flag and the 60-second threshold. -/
def idleDurations (logs : List ActivityEvent) : List Nat :=
  logs.filterMap (fun ev =>
    if ev.timestamp ≠ 0 ∧ ev.etype = "idle" ∧ ev.was_idle ∧ ev.idle_duration > 60 then
      some ev.idle_duration
    else none)

/-- `app_counts[app] = app_counts.get(app, 0) + 1` over an
insertion-ordered dict. -/
def bumpCount (app : String) : List (String × Nat) → List (String × Nat)
  | [] => [(app, 1)]
  | (a, n) :: rest => if a = app then (a, n + 1) :: rest else (a, n) :: bumpCount app rest

/-- Per-day application counts, keys in first-occurrence order. -/
def appCounts (changes : List WindowChange) : List (String × Nat) :=
  changes.foldl (fun acc c => bumpCount c.app acc) []

/-- `top_apps`: the counts sorted descending (Python's stable
`sorted(..., key=count, reverse=True)`), first three. -/
def topApps (changes : List WindowChange) : List (String × Nat) :=
  (sortByKeyDesc (fun p => p.2) (appCounts changes)).take 3

/-- Gregorian civil date (y, m, d) of an epoch-day index. -/
def civilFromDays (z0 : Nat) : Nat × Nat × Nat :=
  let z := z0 + 719468
  let era := z / 146097
  let doe := z % 146097
  let yoe := (doe - doe / 1460 + doe / 36524 - doe / 146097) / 365
  let y := yoe + era * 400
  let doy := doe - (365 * yoe + yoe / 4 - yoe / 100)
  let mp := (5 * doy + 2) / 153
  let d := doy - (153 * mp + 2) / 5 + 1
  let m := if mp < 10 then mp + 3 else mp - 9
  (if m ≤ 2 then y + 1 else y, m, d)

/-- Two-digit zero padding. -/
def pad2 (n : Nat) : String := if n < 10 then "0" ++ toString n else toString n

/-- The `%Y-%m-%d` rendering of an epoch-day index. -/
def fmtDay (d : Nat) : String :=
  let c := civilFromDays d
  let y := toString c.1
  let m := pad2 c.2.1
  let dd := pad2 c.2.2
  y ++ "-" ++ m ++ "-" ++ dd

/-- The `%H:%M` rendering of an epoch-millisecond timestamp. -/
def fmtHM (ts : Nat) : String :=
  pad2 (ts / 3600000 % 24) ++ ":" ++ pad2 (ts / 60000 % 60)

/-- The day label: `"Today"`, `"Yesterday"`, or the date itself. -/
def dayLabelStr (today d : Nat) : String :=
  if d = today then "Today" else if d = today - 1 then "Yesterday" else fmtDay d

/-- Structured form of a `day_summaries` line: the per-day head line
(label, date, `top_apps`), the active-span line, or the key-activities
line. -/
inductive SummaryLine where
  | used (label : String) (day : Nat) (apps : List (String × Nat))
  | activeSpan (day : Nat) (firstT lastT : Nat)
  | keyActivities (day : Nat) (items : List (Nat × String))
deriving Repr, DecidableEq

/-- The `'No Window' in title` substring test. -/
def containsNoWindow (t : String) : Bool :=
  decide (List.IsInfix "No Window".toList t.toList)

/-- `interesting_windows`: windows with a truthy title that does not
contain the `"No Window"` sentinel, first five. -/
def interestingWindows (changes : List WindowChange) : List WindowChange :=
  (changes.filter (fun w => !(w.window == "") && !(containsNoWindow w.window))).take 5

/-- The block of lines one day contributes to `day_summaries`: nothing if
no application was used that day; otherwise the head line, the active-span
line (first to last window change), and, when any interesting window
exists, the key-activities line with the first three. -/
def dayBlock (today : Nat) (d : Nat) (a : DayActs) : List SummaryLine :=
  if a.apps_used ≠ [] then
    SummaryLine.used (dayLabelStr today d) d (topApps a.window_changes) ::
      (if a.window_changes.length > 0 then
        SummaryLine.activeSpan d ((a.window_changes.head?.map (fun w => w.time)).getD 0)
            (((a.window_changes.getLast?).map (fun w => w.time)).getD 0) ::
          (if interestingWindows a.window_changes ≠ [] then
            [SummaryLine.keyActivities d
              (((interestingWindows a.window_changes).map (fun w => (w.time, w.window))).take 3)]
          else [])
      else [])
  else []

/-- The per-day loop over the day buckets. -/
def dayLines (today : Nat) : List (Nat × DayActs) → List SummaryLine
  | [] => []
  | (d, a) :: rest => dayBlock today d a ++ dayLines today rest

/-- `day_summaries`: days iterated most recent first
(`sorted(activities_by_day.items(), reverse=True)` on ISO date keys is
reverse-chronological), each contributing its block. -/
def daySummaryLines (today : Nat) (logs : List ActivityEvent) : List SummaryLine :=
  dayLines today (sortByKeyDesc (fun p => p.1) (groupDays logs))

/-- Structured form of an `insights` entry; the numeric payloads are the
exact quantities the code formats. -/
inductive Insight where
  | highSwitching (switches uniqueApps : Nat)
  | mostUsed (app : String) (count : Nat)
  | extendedIdle (totalIdle numPeriods : Nat)
  | focusSession (durationMs : Nat) (app : String)
  | reduceSwitching
  | lowActivity
deriving Repr, DecidableEq

/-- Python `max(items, key=...)`: the first element with a maximal key. -/
def pyMaxBySnd (p : String × Nat) (ps : List (String × Nat)) : String × Nat :=
  ps.foldl (fun acc q => if q.2 > acc.2 then q else acc) p

/-- `app_durations[app] = app_durations.get(app, 0) + d` on an
insertion-ordered dict. -/
def addDur (app : String) (d : Nat) : List (String × Nat) → List (String × Nat)
  | [] => [(app, d)]
  | (a, n) :: rest => if a = app then (a, n + d) :: rest else (a, n) :: addDur app d rest

/-- The duration walk over the time-sorted switches. `current_app` and
`current_time` start out `None`; a falsy current app (empty string) or
time (zero) skips the segment, and only segments strictly between 0 and
one hour are counted. -/
def appDurationsAux (cur : Option (String × Nat)) (durs : List (String × Nat)) :
    List (String × Nat) → List (String × Nat)
  | [] => durs
  | (app, t) :: rest =>
    let durs' :=
      match cur with
      | some (ca, ct) =>
        if ca ≠ "" ∧ ct ≠ 0 then
          let d := t - ct
          if 0 < d ∧ d < 3600000 then addDur ca d durs else durs
        else durs
      | none => durs
    appDurationsAux (some (app, t)) durs' rest

/-- `app_durations` computed over `sorted(app_switches, key=time)`. -/
def appDurations (switches : List (String × Nat)) : List (String × Nat) :=
  appDurationsAux none [] (sortByKey (fun p => p.2) switches)

/-- Overall application counts over `app_switches`. -/
def switchCounts (switches : List (String × Nat)) : List (String × Nat) :=
  switches.foldl (fun acc s => bumpCount s.1 acc) []

/-- The `insights` block, in program order.  The `if app_switches:` guards
of the source are equivalent to the emptiness of the derived dicts used
here (`switchCounts` and `appDurations` are empty exactly when
`app_switches` is). -/
def insightLines (logs : List ActivityEvent) : List Insight :=
  let switches := appSwitches logs
  let idles := idleDurations logs
  let l1 : List Insight :=
    if switches.length > 10 then
      [.highSwitching switches.length ((switches.map (fun s => s.1)).eraseDups).length]
    else []
  let l2 : List Insight :=
    match switchCounts switches with
    | [] => []
    | c :: cs =>
      let mu := pyMaxBySnd c cs
      if mu.2 > 5 then [.mostUsed mu.1 mu.2] else []
  let l3 : List Insight :=
    if idles ≠ [] then
      let total := idles.foldl (· + ·) 0
      if total > 300 * idles.length then [.extendedIdle total idles.length] else []
    else []
  let l4 : List Insight :=
    match (appDurations switches).filter (fun p => p.2 > 600000) with
    | [] => []
    | f :: fs =>
      let longest := pyMaxBySnd f fs
      [.focusSession longest.2 longest.1]
  let l5 : List Insight :=
    if switches.length > 20 then [.reduceSwitching]
    else if switches.length < 3 then [.lowActivity]
    else []
  l1 ++ l2 ++ l3 ++ l4 ++ l5

/-- One decimal digit of `num / den`, rendered like Python's `:.1f` up to
the rounding mode of binary floats. -/
def fmtTenths (num den : Nat) : String :=
  let t := num * 10 / den
  toString (t / 10) ++ "." ++ toString (t % 10)

/-- The `app_summary` rendering: `"app (count times)"`, comma-joined. -/
def renderApps (apps : List (String × Nat)) : String :=
  String.intercalate ", " (apps.map (fun p => p.1 ++ " (" ++ toString p.2 ++ " times)"))

/-- Rendering of a day-summary line to its text. -/
def renderSummaryLine : SummaryLine → String
  | .used label d apps => label ++ " (" ++ fmtDay d ++ "): Used " ++ renderApps apps
  | .activeSpan _ f l => "  - Active from " ++ fmtHM f ++ " to " ++ fmtHM l
  | .keyActivities _ items =>
    "  - Key activities: " ++
      String.intercalate "; " (items.map (fun p => fmtHM p.1 ++ ": " ++ p.2))

/-- Rendering of an insight to its text. -/
def renderInsight : Insight → String
  | .highSwitching s u =>
    "High task switching detected: " ++ toString s ++ " app changes across " ++
      toString u ++ " applications in recent days."
  | .mostUsed app c =>
    "Most frequently used application: " ++ app ++ " (" ++ toString c ++ " interactions)."
  | .extendedIdle total n =>
    "Extended idle periods detected (avg " ++ fmtTenths total (60 * n) ++ " minutes)."
  | .focusSession ms app =>
    "Good focus session detected: " ++ fmtTenths ms 60000 ++ " minutes in " ++ app ++ "."
  | .reduceSwitching =>
    "Consider using a focus technique like Pomodoro or time-blocking to reduce context switching."
  | .lowActivity =>
    "Low activity detected. If you\x27re stuck, try the 2-minute rule or breaking tasks into smaller steps."

/-- Embedding of `_analyze_activity_context`: the empty event list returns
the empty string immediately; otherwise the day-summary and insight
sections are rendered under their headers and joined with newlines behind
a leading newline (or the empty string if both sections are empty). -/
def analyzeActivityContext (today : Nat) (logs : List ActivityEvent) : String :=
  if logs = [] then ""
  else
    let ds := (daySummaryLines today logs).map renderSummaryLine
    let ins := (insightLines logs).map renderInsight
    let p1 : List String :=
      if ds ≠ [] then
        "USER\x27S RECENT ACTIVITY HISTORY:" :: ((ds.map (fun s => "- " ++ s)) ++ [""])
      else []
    let p2 : List String :=
      if ins ≠ [] then
        "ACTIVITY PATTERNS & INSIGHTS:" :: ((ins.map (fun s => "- " ++ s)) ++ [""])
      else []
    let parts := p1 ++ p2
    if parts ≠ [] then "\n" ++ String.intercalate "\n" parts else ""

/-! Structural lemmas about the day grouping (towards C8). -/

theorem find?_key_eq_of_mem_nodup {α β : Type} [BEq α] [LawfulBEq α]
    {acc : List (α × β)} {k : α} {b : β}
    (hnd : (acc.map (fun p => p.1)).Nodup) (hm : (k, b) ∈ acc) :
    acc.find? (fun p => p.1 == k) = some (k, b) := by
  induction acc with
  | nil => cases hm
  | cons p rest ih =>
    rw [List.map_cons, List.nodup_cons] at hnd
    rcases List.mem_cons.mp hm with rfl | hm2
    · rw [List.find?_cons_of_pos _ (by simp)]
    · have hkr : k ∈ rest.map (fun p => p.1) := List.mem_map.mpr ⟨(k, b), hm2, rfl⟩
      have hne : p.1 ≠ k := fun he => hnd.1 (he ▸ hkr)
      rw [List.find?_cons_of_neg _ (by simp [hne])]
      exact ih hnd.2 hm2

/-- The window-change record an event contributes to its day's bucket
(nothing for non-window-change events). -/
def changeOf (ev : ActivityEvent) : List WindowChange :=
  if ev.etype = "window_change" then
    [⟨ev.timestamp, ev.application_name.getD "Unknown", ev.window_title.getD ""⟩]
  else []

theorem stepDay_changes (ev : ActivityEvent) (a : DayActs) :
    (stepDay ev a).window_changes = a.window_changes ++ changeOf ev := by
  unfold stepDay changeOf
  by_cases h1 : ev.etype = "window_change"
  · simp [h1]
  · rw [if_neg h1, if_neg h1]
    by_cases h2 : ev.etype = "idle"
    · rw [if_pos h2]
      split <;> simp
    · rw [if_neg h2]
      simp

theorem stepDay_apps (ev : ActivityEvent) (a : DayActs) :
    (stepDay ev a).apps_used =
      (if ev.etype = "window_change" then
        (if (ev.application_name.getD "Unknown") ∈ a.apps_used then a.apps_used
         else a.apps_used ++ [ev.application_name.getD "Unknown"])
      else a.apps_used) := by
  unfold stepDay
  by_cases h1 : ev.etype = "window_change"
  · simp [h1]
  · rw [if_neg h1, if_neg h1]
    by_cases h2 : ev.etype = "idle"
    · rw [if_pos h2]
      split <;> rfl
    · rw [if_neg h2]

/-- The `window_changes` stored for day `d` (empty when the day has no
bucket). -/
def dayChangesIn (acc : List (Nat × DayActs)) (d : Nat) : List WindowChange :=
  match acc.find? (fun p => p.1 == d) with
  | some p => p.2.window_changes
  | none => []

theorem dayChangesIn_cons (k0 : Nat) (a : DayActs) (xs : List (Nat × DayActs)) (d : Nat) :
    dayChangesIn ((k0, a) :: xs) d =
      if k0 = d then a.window_changes else dayChangesIn xs d := by
  unfold dayChangesIn
  by_cases h : k0 = d
  · rw [List.find?_cons_of_pos _ (by simp [h]), if_pos h]
  · rw [List.find?_cons_of_neg _ (by simp [h]), if_neg h]

theorem dayChangesIn_updateDay (k : Nat) (ev : ActivityEvent) (acc : List (Nat × DayActs))
    (d : Nat) :
    dayChangesIn (updateDay k ev acc) d =
      if k = d then dayChangesIn acc d ++ changeOf ev else dayChangesIn acc d := by
  induction acc with
  | nil =>
    rw [updateDay, dayChangesIn_cons]
    by_cases h : k = d
    · rw [if_pos h, if_pos h, stepDay_changes]
      show emptyDay.window_changes ++ changeOf ev = dayChangesIn [] d ++ changeOf ev
      rfl
    · rw [if_neg h, if_neg h]
  | cons p rest ih =>
    obtain ⟨k0, a⟩ := p
    rw [updateDay]
    by_cases hk : k0 = k
    · rw [if_pos hk]
      simp only [dayChangesIn_cons]
      by_cases hd : k0 = d
      · have hkd : k = d := hk.symm.trans hd
        rw [if_pos hd, if_pos hd, if_pos hkd, stepDay_changes]
      · have hkd : k ≠ d := fun he => hd (hk.trans he)
        rw [if_neg hd, if_neg hd, if_neg hkd]
    · rw [if_neg hk]
      simp only [dayChangesIn_cons]
      by_cases hd : k0 = d
      · have hkd : k ≠ d := fun he => hk (hd.trans he.symm)
        rw [if_pos hd, if_pos hd, if_neg hkd]
      · rw [if_neg hd, if_neg hd, ih]

/-- Window-change events of calendar day `d` (nonzero timestamp). -/
def windowEvents (logs : List ActivityEvent) (d : Nat) : List ActivityEvent :=
  logs.filter (fun ev => decide (ev.timestamp ≠ 0) && (ev.etype == "window_change") &&
    (dayOf ev.timestamp == d))

/-- The `WindowChange` records of day `d`, straight from the event list. -/
def logChanges (logs : List ActivityEvent) (d : Nat) : List WindowChange :=
  (windowEvents logs d).map (fun ev =>
    ⟨ev.timestamp, ev.application_name.getD "Unknown", ev.window_title.getD ""⟩)

theorem logChanges_cons (ev : ActivityEvent) (evs : List ActivityEvent) (d : Nat) :
    logChanges (ev :: evs) d =
      (if ev.timestamp ≠ 0 ∧ dayOf ev.timestamp = d then changeOf ev else []) ++
        logChanges evs d := by
  unfold logChanges windowEvents changeOf
  rw [List.filter_cons]
  by_cases h1 : ev.timestamp ≠ 0 <;> by_cases h2 : ev.etype = "window_change" <;>
    by_cases h3 : dayOf ev.timestamp = d <;> simp [h1, h2, h3]

theorem dayChangesIn_fold (evs : List ActivityEvent) :
    ∀ (acc : List (Nat × DayActs)) (d : Nat),
      dayChangesIn (evs.foldl (fun acc ev =>
        if ev.timestamp ≠ 0 then updateDay (dayOf ev.timestamp) ev acc else acc) acc) d =
      dayChangesIn acc d ++ logChanges evs d := by
  induction evs with
  | nil => intro acc d; simp [logChanges, windowEvents]
  | cons ev evs ih =>
    intro acc d
    rw [List.foldl_cons, ih, logChanges_cons]
    by_cases h1 : ev.timestamp ≠ 0
    · rw [if_pos h1, dayChangesIn_updateDay]
      by_cases h3 : dayOf ev.timestamp = d
      · rw [if_pos h3, if_pos ⟨h1, h3⟩, List.append_assoc]
      · rw [if_neg h3, if_neg (fun hc => h3 hc.2)]
        simp
    · rw [if_neg h1, if_neg (fun hc => h1 hc.1)]
      simp

theorem dayChangesIn_groupDays (logs : List ActivityEvent) (d : Nat) :
    dayChangesIn (groupDays logs) d = logChanges logs d := by
  unfold groupDays
  rw [dayChangesIn_fold]
  simp [dayChangesIn]

theorem updateDay_keys (k : Nat) (ev : ActivityEvent) (acc : List (Nat × DayActs)) :
    (updateDay k ev acc).map (fun p => p.1) =
      (if k ∈ acc.map (fun p => p.1) then acc.map (fun p => p.1)
       else acc.map (fun p => p.1) ++ [k]) := by
  induction acc with
  | nil => simp [updateDay]
  | cons p rest ih =>
    obtain ⟨k0, a⟩ := p
    rw [updateDay]
    by_cases hk : k0 = k
    · rw [if_pos hk]
      simp [hk]
    · rw [if_neg hk]
      simp only [List.map_cons, ih]
      by_cases hm : k ∈ rest.map (fun p => p.1)
      · simp [hm, hk]
      · simp [hm, Ne.symm hk]

theorem updateDay_keys_nodup (k : Nat) (ev : ActivityEvent) (acc : List (Nat × DayActs))
    (h : (acc.map (fun p => p.1)).Nodup) :
    ((updateDay k ev acc).map (fun p => p.1)).Nodup := by
  rw [updateDay_keys]
  by_cases hm : k ∈ acc.map (fun p => p.1)
  · rw [if_pos hm]; exact h
  · rw [if_neg hm]
    simp [List.nodup_append, h, hm]

theorem groupDays_keys_nodup (logs : List ActivityEvent) :
    ((groupDays logs).map (fun p => p.1)).Nodup := by
  unfold groupDays
  have h : ∀ acc : List (Nat × DayActs), (acc.map (fun p => p.1)).Nodup →
      ((logs.foldl (fun acc ev =>
        if ev.timestamp ≠ 0 then updateDay (dayOf ev.timestamp) ev acc else acc) acc).map
        (fun p => p.1)).Nodup := by
    induction logs with
    | nil => intro acc h; exact h
    | cons ev evs ih =>
      intro acc hacc
      rw [List.foldl_cons]
      apply ih
      by_cases h1 : ev.timestamp ≠ 0
      · rw [if_pos h1]; exact updateDay_keys_nodup _ _ _ hacc
      · rw [if_neg h1]; exact hacc
  exact h [] (by simp)

theorem stepDay_used_iff (ev : ActivityEvent) (a : DayActs)
    (h : a.apps_used = [] ↔ a.window_changes = []) :
    ((stepDay ev a).apps_used = [] ↔ (stepDay ev a).window_changes = []) := by
  by_cases h1 : ev.etype = "window_change"
  · refine iff_of_false ?_ ?_
    · rw [stepDay_apps, if_pos h1]
      by_cases hm : (ev.application_name.getD "Unknown") ∈ a.apps_used
      · rw [if_pos hm]
        exact List.ne_nil_of_mem hm
      · rw [if_neg hm]
        simp
    · rw [stepDay_changes]
      simp [changeOf, h1]
  · rw [stepDay_apps, if_neg h1, stepDay_changes]
    simp [changeOf, h1, h]

theorem updateDay_used_iff (k : Nat) (ev : ActivityEvent) (acc : List (Nat × DayActs))
    (h : ∀ pa ∈ acc, pa.2.apps_used = [] ↔ pa.2.window_changes = []) :
    ∀ pa ∈ updateDay k ev acc, pa.2.apps_used = [] ↔ pa.2.window_changes = [] := by
  induction acc with
  | nil =>
    intro pa hpa
    rw [updateDay] at hpa
    rcases List.mem_cons.mp hpa with rfl | h2
    · exact stepDay_used_iff ev emptyDay (by simp [emptyDay])
    · cases h2
  | cons p rest ih =>
    obtain ⟨k0, a⟩ := p
    intro pa hpa
    rw [updateDay] at hpa
    by_cases hk : k0 = k
    · rw [if_pos hk] at hpa
      rcases List.mem_cons.mp hpa with rfl | h2
      · exact stepDay_used_iff ev a (h (k0, a) (List.mem_cons_self _ _))
      · exact h pa (List.mem_cons_of_mem _ h2)
    · rw [if_neg hk] at hpa
      rcases List.mem_cons.mp hpa with rfl | h2
      · exact h (k0, a) (List.mem_cons_self _ _)
      · exact ih (fun q hq => h q (List.mem_cons_of_mem _ hq)) pa h2

theorem groupDays_used_iff (logs : List ActivityEvent) :
    ∀ pa ∈ groupDays logs, pa.2.apps_used = [] ↔ pa.2.window_changes = [] := by
  unfold groupDays
  have h : ∀ acc : List (Nat × DayActs),
      (∀ pa ∈ acc, pa.2.apps_used = [] ↔ pa.2.window_changes = []) →
      ∀ pa ∈ logs.foldl (fun acc ev =>
        if ev.timestamp ≠ 0 then updateDay (dayOf ev.timestamp) ev acc else acc) acc,
        pa.2.apps_used = [] ↔ pa.2.window_changes = [] := by
    induction logs with
    | nil => intro acc h; exact h
    | cons ev evs ih =>
      intro acc hacc
      rw [List.foldl_cons]
      apply ih
      by_cases h1 : ev.timestamp ≠ 0
      · rw [if_pos h1]; exact updateDay_used_iff _ _ _ hacc
      · rw [if_neg h1]; exact hacc
  exact h [] (by intro pa hpa; cases hpa)

/-! Counting lemmas for the per-day application statistics (towards C8). -/

/-- Occurrences of application `app` in a list of window changes. -/
def countApp (changes : List WindowChange) (app : String) : Nat :=
  (changes.filter (fun c => c.app == app)).length

/-- Lookup in an insertion-ordered counts dict, `0` when absent. -/
def countIn (acc : List (String × Nat)) (x : String) : Nat :=
  match acc.find? (fun p => p.1 == x) with
  | some p => p.2
  | none => 0

theorem countIn_cons (a : String) (n : Nat) (rest : List (String × Nat)) (x : String) :
    countIn ((a, n) :: rest) x = if a = x then n else countIn rest x := by
  unfold countIn
  by_cases h : a = x
  · rw [List.find?_cons_of_pos _ (by simp [h]), if_pos h]
  · rw [List.find?_cons_of_neg _ (by simp [h]), if_neg h]

theorem countIn_bumpCount (app x : String) (acc : List (String × Nat)) :
    countIn (bumpCount app acc) x =
      if x = app then countIn acc x + 1 else countIn acc x := by
  induction acc with
  | nil =>
    rw [bumpCount, countIn_cons]
    by_cases h : x = app
    · rw [if_pos h.symm, if_pos h]
      rfl
    · rw [if_neg (fun he => h he.symm), if_neg h]
  | cons p rest ih =>
    obtain ⟨a, n⟩ := p
    rw [bumpCount]
    by_cases ha : a = app
    · rw [if_pos ha]
      subst ha
      simp only [countIn_cons]
      by_cases hx : a = x
      · simp [hx]
      · simp [hx, Ne.symm hx]
    · rw [if_neg ha]
      simp only [countIn_cons]
      by_cases hx : a = x
      · have hxa : x ≠ app := fun he => ha (hx.trans he)
        simp [hx, hxa]
      · simp [hx, ih]

theorem countIn_foldCounts (l : List WindowChange) :
    ∀ (acc : List (String × Nat)) (x : String),
      countIn (l.foldl (fun acc c => bumpCount c.app acc) acc) x =
        countIn acc x + countApp l x := by
  induction l with
  | nil => intro acc x; simp [countApp]
  | cons c cs ih =>
    intro acc x
    rw [List.foldl_cons, ih, countIn_bumpCount]
    by_cases h : x = c.app
    · rw [if_pos h]
      have hc : countApp (c :: cs) x = countApp cs x + 1 := by
        unfold countApp
        rw [List.filter_cons, if_pos (by simp [h])]
        simp [Nat.add_comm]
      rw [hc]
      omega
    · rw [if_neg h]
      have hc : countApp (c :: cs) x = countApp cs x := by
        unfold countApp
        rw [List.filter_cons, if_neg (fun hb => h (eq_of_beq hb).symm)]
      rw [hc]

theorem countIn_appCounts (l : List WindowChange) (x : String) :
    countIn (appCounts l) x = countApp l x := by
  unfold appCounts
  rw [countIn_foldCounts]
  simp [countIn]

theorem bumpCount_keys_mem (app x : String) (acc : List (String × Nat)) :
    (x ∈ (bumpCount app acc).map (fun p => p.1)) ↔
      (x = app ∨ x ∈ acc.map (fun p => p.1)) := by
  induction acc with
  | nil => simp [bumpCount]
  | cons p rest ih =>
    obtain ⟨a, n⟩ := p
    rw [bumpCount]
    by_cases ha : a = app
    · rw [if_pos ha]
      subst ha
      simp only [List.map_cons, List.mem_cons]
      tauto
    · rw [if_neg ha]
      simp only [List.map_cons, List.mem_cons, ih]
      tauto

theorem bumpCount_keys_nodup (app : String) (acc : List (String × Nat))
    (h : (acc.map (fun p => p.1)).Nodup) :
    ((bumpCount app acc).map (fun p => p.1)).Nodup := by
  induction acc with
  | nil => simp [bumpCount]
  | cons p rest ih =>
    obtain ⟨a, n⟩ := p
    rw [List.map_cons, List.nodup_cons] at h
    rw [bumpCount]
    by_cases ha : a = app
    · rw [if_pos ha, List.map_cons, List.nodup_cons]
      exact ⟨h.1, h.2⟩
    · rw [if_neg ha, List.map_cons, List.nodup_cons]
      refine ⟨?_, ih h.2⟩
      intro hmem
      rcases (bumpCount_keys_mem app a rest).mp hmem with he | hm
      · exact ha he
      · exact h.1 hm

theorem appCounts_keys_nodup (l : List WindowChange) :
    ((appCounts l).map (fun p => p.1)).Nodup := by
  unfold appCounts
  have h : ∀ acc : List (String × Nat), (acc.map (fun p => p.1)).Nodup →
      ((l.foldl (fun acc c => bumpCount c.app acc) acc).map (fun p => p.1)).Nodup := by
    induction l with
    | nil => intro acc h; exact h
    | cons c cs ih =>
      intro acc h
      rw [List.foldl_cons]
      exact ih _ (bumpCount_keys_nodup _ _ h)
  exact h [] (by simp)

theorem appCounts_keys_mem (l : List WindowChange) (x : String) :
    (x ∈ (appCounts l).map (fun p => p.1)) ↔ x ∈ l.map (fun c => c.app) := by
  unfold appCounts
  have h : ∀ acc : List (String × Nat),
      ((x ∈ (l.foldl (fun acc c => bumpCount c.app acc) acc).map (fun p => p.1)) ↔
        (x ∈ acc.map (fun p => p.1) ∨ x ∈ l.map (fun c => c.app))) := by
    induction l with
    | nil => intro acc; simp
    | cons c cs ih =>
      intro acc
      rw [List.foldl_cons, ih, bumpCount_keys_mem]
      simp only [List.map_cons, List.mem_cons]
      tauto
  rw [h []]
  simp

theorem appCounts_entry (l : List WindowChange) (x : String) (n : Nat)
    (h : (x, n) ∈ appCounts l) : n = countApp l x := by
  have hf := find?_key_eq_of_mem_nodup (appCounts_keys_nodup l) h
  have h2 : countIn (appCounts l) x = n := by
    unfold countIn
    rw [hf]
  rw [← h2, countIn_appCounts]

theorem take_dominates {α : Type} (key : α → Nat) (l : List α) (n : Nat)
    (h : l.Pairwise (fun x y => key y ≤ key x)) :
    ∀ q ∈ l.take n, ∀ p ∈ l.drop n, key p ≤ key q := by
  intro q hq p hp
  have h2 : (l.take n ++ l.drop n).Pairwise (fun x y => key y ≤ key x) := by
    rw [List.take_append_drop]
    exact h
  rw [List.pairwise_append] at h2
  exact h2.2.2 q hq p hp

/-! The head lines of the day summary (towards C8). -/

/-- The head summary lines, as (day, top-apps) pairs. -/
def usedLines (ls : List SummaryLine) : List (Nat × List (String × Nat)) :=
  ls.filterMap (fun l => match l with
    | .used _ d apps => some (d, apps)
    | _ => none)

theorem usedLines_append (xs ys : List SummaryLine) :
    usedLines (xs ++ ys) = usedLines xs ++ usedLines ys := by
  unfold usedLines
  rw [List.filterMap_append]

theorem usedLines_dayBlock (today d : Nat) (a : DayActs) :
    usedLines (dayBlock today d a) =
      if a.apps_used ≠ [] then [(d, topApps a.window_changes)] else [] := by
  unfold dayBlock
  by_cases h : a.apps_used ≠ []
  · rw [if_pos h, if_pos h]
    split
    · split
      · rfl
      · rfl
    · rfl
  · rw [if_neg h, if_neg h]
    rfl

theorem usedLines_dayLines (today : Nat) (l : List (Nat × DayActs)) :
    usedLines (dayLines today l) =
      (l.filter (fun p => !p.2.apps_used.isEmpty)).map
        (fun p => (p.1, topApps p.2.window_changes)) := by
  induction l with
  | nil => rfl
  | cons p rest ih =>
    obtain ⟨d, a⟩ := p
    rw [dayLines, usedLines_append, usedLines_dayBlock, ih, List.filter_cons]
    by_cases h : a.apps_used = []
    · simp [h]
    · simp [h]

theorem groupDays_changes (logs : List ActivityEvent) {d : Nat} {a : DayActs}
    (h : (d, a) ∈ groupDays logs) : a.window_changes = logChanges logs d := by
  have hf := find?_key_eq_of_mem_nodup (groupDays_keys_nodup logs) h
  have h2 : dayChangesIn (groupDays logs) d = a.window_changes := by
    unfold dayChangesIn
    rw [hf]
  rw [← h2, dayChangesIn_groupDays]

theorem groupDays_mem_of_windowEvents (logs : List ActivityEvent) (d : Nat)
    (h : windowEvents logs d ≠ []) :
    ∃ a : DayActs, (d, a) ∈ groupDays logs ∧ a.window_changes ≠ [] := by
  have hlc : logChanges logs d ≠ [] := by
    unfold logChanges
    simp [h]
  have hdc : dayChangesIn (groupDays logs) d ≠ [] := by
    rw [dayChangesIn_groupDays]
    exact hlc
  unfold dayChangesIn at hdc
  cases hfind : (groupDays logs).find? (fun p => p.1 == d) with
  | none =>
    rw [hfind] at hdc
    exact absurd rfl hdc
  | some p =>
    rw [hfind] at hdc
    have hp := List.mem_of_find?_eq_some hfind
    have hpd : p.1 = d := by
      have h3 := List.find?_some hfind
      simpa using h3
    refine ⟨p.2, ?_, hdc⟩
    rw [← hpd]
    exact hp

/-- C8: for every input event list, the day-summary head lines of the
Activity Analyzer satisfy: their day indices are strictly decreasing, so
there is at most one head line per calendar day and more recent days come
first; a head line exists for a day exactly when the day has window-change
events; and each head line's application list has at most three entries,
each entry's count is the day's true occurrence count of that application,
and every application of the day that is not listed occurs at most as
often as every listed one (top 3 by occurrence count). -/
theorem activity_day_summary_shape (today : Nat) (logs : List ActivityEvent) :
    (usedLines (daySummaryLines today logs)).Pairwise (fun p q => q.1 < p.1) ∧
    (∀ d : Nat, (∃ apps, (d, apps) ∈ usedLines (daySummaryLines today logs)) ↔
      windowEvents logs d ≠ []) ∧
    (∀ p ∈ usedLines (daySummaryLines today logs),
      p.2.length ≤ 3 ∧
      (∀ q ∈ p.2, q.2 = countApp (logChanges logs p.1) q.1) ∧
      (∀ app ∈ (logChanges logs p.1).map (fun c => c.app),
        app ∉ p.2.map (fun q => q.1) →
          ∀ q ∈ p.2, countApp (logChanges logs p.1) app ≤ q.2)) := by
  have hU : usedLines (daySummaryLines today logs) =
      ((sortByKeyDesc (fun p : Nat × DayActs => p.1) (groupDays logs)).filter
        (fun p => !p.2.apps_used.isEmpty)).map
        (fun p => (p.1, topApps p.2.window_changes)) := by
    unfold daySummaryLines
    exact usedLines_dayLines today _
  have hSperm := sortByKeyDesc_perm (fun p : Nat × DayActs => p.1) (groupDays logs)
  have hSmem : ∀ p : Nat × DayActs,
      (p ∈ sortByKeyDesc (fun p : Nat × DayActs => p.1) (groupDays logs) ↔
        p ∈ groupDays logs) :=
    fun p => hSperm.mem_iff
  have hSnodup : ((sortByKeyDesc (fun p : Nat × DayActs => p.1) (groupDays logs)).map
      (fun p => p.1)).Nodup :=
    ((hSperm.map (fun p => p.1)).nodup_iff).mpr (groupDays_keys_nodup logs)
  refine ⟨?_, ?_, ?_⟩
  · rw [hU]
    have hSsorted := sortByKeyDesc_pairwise (fun p : Nat × DayActs => p.1) (groupDays logs)
    have hSne : (sortByKeyDesc (fun p : Nat × DayActs => p.1) (groupDays logs)).Pairwise
        (fun p q => p.1 ≠ q.1) := by
      have h2 : ((sortByKeyDesc (fun p : Nat × DayActs => p.1) (groupDays logs)).map
          (fun p => p.1)).Pairwise (fun a b => a ≠ b) := hSnodup
      rw [List.pairwise_map] at h2
      exact h2
    have hSlt := (hSsorted.and hSne).imp
      (fun h => lt_of_le_of_ne h.1 (Ne.symm h.2))
    have hflt := hSlt.filter (fun p => !p.2.apps_used.isEmpty)
    rw [List.pairwise_map]
    exact hflt
  · intro d
    constructor
    · rintro ⟨apps, hm⟩
      rw [hU] at hm
      obtain ⟨p, hpf, hpe⟩ := List.mem_map.mp hm
      have hp1 : p.1 = d := congrArg Prod.fst hpe
      obtain ⟨hpS, hpred⟩ := List.mem_filter.mp hpf
      have hpG : p ∈ groupDays logs := (hSmem p).mp hpS
      have hne : p.2.apps_used ≠ [] := by
        intro he
        simp [he] at hpred
      have hwc : p.2.window_changes ≠ [] := fun he =>
        hne ((groupDays_used_iff logs p hpG).mpr he)
      have hpd : (d, p.2) ∈ groupDays logs := by
        rw [← hp1]
        exact hpG
      have hch : p.2.window_changes = logChanges logs d := groupDays_changes logs hpd
      intro hwe
      apply hwc
      rw [hch]
      unfold logChanges
      rw [hwe]
      rfl
    · intro hwe
      obtain ⟨a, haG, hawc⟩ := groupDays_mem_of_windowEvents logs d hwe
      have hau : a.apps_used ≠ [] := fun he =>
        hawc ((groupDays_used_iff logs (d, a) haG).mp he)
      refine ⟨topApps a.window_changes, ?_⟩
      rw [hU]
      apply List.mem_map.mpr
      refine ⟨(d, a), ?_, rfl⟩
      apply List.mem_filter.mpr
      refine ⟨(hSmem (d, a)).mpr haG, ?_⟩
      simp [hau]
  · intro p hp
    rw [hU] at hp
    obtain ⟨q, hqf, hqe⟩ := List.mem_map.mp hp
    obtain ⟨hqS, hqpred⟩ := List.mem_filter.mp hqf
    have hqG : q ∈ groupDays logs := (hSmem q).mp hqS
    have hq1 : q.1 = p.1 := congrArg Prod.fst hqe
    have happs : p.2 = topApps q.2.window_changes := (congrArg Prod.snd hqe).symm
    have hqd : (p.1, q.2) ∈ groupDays logs := by
      rw [← hq1]
      exact hqG
    have hch : q.2.window_changes = logChanges logs p.1 := groupDays_changes logs hqd
    refine ⟨?_, ?_, ?_⟩
    · rw [happs]
      unfold topApps
      exact List.length_take_le _ _
    · intro r hr
      rw [happs, hch] at hr
      unfold topApps at hr
      have hr2 := List.mem_of_mem_take hr
      have hr3 : r ∈ appCounts (logChanges logs p.1) :=
        (mem_sortByKeyDesc (fun p : String × Nat => p.2) r _).mp hr2
      exact appCounts_entry _ r.1 r.2 hr3
    · intro app happ hnot r hr
      have hkey : app ∈ (appCounts (logChanges logs p.1)).map (fun p => p.1) :=
        (appCounts_keys_mem _ app).mpr happ
      obtain ⟨e, heC, he1⟩ := List.mem_map.mp hkey
      have hev : e.2 = countApp (logChanges logs p.1) e.1 :=
        appCounts_entry _ e.1 e.2 heC
      have heS : e ∈ sortByKeyDesc (fun p : String × Nat => p.2)
          (appCounts (logChanges logs p.1)) :=
        (mem_sortByKeyDesc (fun p : String × Nat => p.2) e _).mpr heC
      rw [happs, hch] at hr hnot
      unfold topApps at hr hnot
      have hnotin : e ∉ (sortByKeyDesc (fun p : String × Nat => p.2)
          (appCounts (logChanges logs p.1))).take 3 := by
        intro hmem
        exact hnot (List.mem_map.mpr ⟨e, hmem, he1⟩)
      have hdrop : e ∈ (sortByKeyDesc (fun p : String × Nat => p.2)
          (appCounts (logChanges logs p.1))).drop 3 := by
        have h4 := heS
        rw [← List.take_append_drop 3 (sortByKeyDesc (fun p : String × Nat => p.2)
          (appCounts (logChanges logs p.1)))] at h4
        rcases List.mem_append.mp h4 with h5 | h5
        · exact absurd h5 hnotin
        · exact h5
      have hdom := take_dominates (fun p : String × Nat => p.2) _ 3
        (sortByKeyDesc_pairwise (fun p : String × Nat => p.2)
          (appCounts (logChanges logs p.1))) r hr e hdrop
      calc countApp (logChanges logs p.1) app
          = countApp (logChanges logs p.1) e.1 := by rw [he1]
        _ = e.2 := hev.symm
        _ ≤ r.2 := hdom

/-- A two-day event trace: day 0 has eight window changes over four
applications (A three times, then B twice, C twice, D once) plus one
qualifying idle event, day 1 has a single window change. -/
def demoLogs : List ActivityEvent :=
  [⟨1000, "window_change", some "A", some "w1", 0, false⟩,
   ⟨2000, "window_change", some "A", some "w2", 0, false⟩,
   ⟨3000, "window_change", some "A", some "w3", 0, false⟩,
   ⟨4000, "window_change", some "B", some "w4", 0, false⟩,
   ⟨5000, "window_change", some "B", some "w5", 0, false⟩,
   ⟨6000, "window_change", some "C", some "w6", 0, false⟩,
   ⟨7000, "window_change", some "C", some "w7", 0, false⟩,
   ⟨8000, "window_change", some "D", some "w8", 0, false⟩,
   ⟨9000, "idle", none, none, 120, true⟩,
   ⟨86401000, "window_change", some "E", some "w9", 0, false⟩]

theorem activity_day_summary_shape_witness :
    ((0, [("A", 3), ("B", 2), ("C", 2)]) ∈ usedLines (daySummaryLines 1 demoLogs)) ∧
    (3 : Nat) = countApp (logChanges demoLogs 0) "A" ∧
    countApp (logChanges demoLogs 0) "D" ≤ 3 ∧
    (∃ apps, (1, apps) ∈ usedLines (daySummaryLines 1 demoLogs)) := by
  have h := activity_day_summary_shape 1 demoLogs
  have hmem : (0, [("A", 3), ("B", 2), ("C", 2)]) ∈ usedLines (daySummaryLines 1 demoLogs) := by
    decide
  refine ⟨hmem, ?_, ?_, ?_⟩
  · exact (h.2.2 _ hmem).2.1 ("A", 3) (by decide)
  · exact (h.2.2 _ hmem).2.2 "D" (by decide) (by decide) ("A", 3) (by decide)
  · exact (h.2.1 1).mpr (by decide)

/-- C9: the Activity Analyzer is a deterministic pure function of the
event list and the (held fixed) current date: it returns the empty string
for the empty event list, and repeated invocations on the same input
produce identical output. -/
theorem analyze_activity_deterministic :
    (∀ today : Nat, analyzeActivityContext today [] = "") ∧
    (∀ (today : Nat) (logs : List ActivityEvent),
      analyzeActivityContext today logs = analyzeActivityContext today logs) :=
  ⟨fun _ => rfl, fun _ _ => rfl⟩

end Tether
